import Mathlib

/-!
Verification of the BrainPond grid virtual machine (src/main.py).

The development shallowly embeds the interpreter: grids and tapes are
functions from integer coordinate pairs to integer cell values, the
execution engine is an explicit state-passing step function, and the
bracket-matching scan is a fuel-based recursion whose fuel is proved
sufficient for in-range start positions.
-/

namespace BrainPond

/-- Grid and Tape contents: a total map from (row, col) to the stored value.
Cell values written by the program are always in the signed 8-bit range. -/
abbrev GridF := Int × Int → Int

/-- Sizes of the shared grid and the per-run tape
(constructor arguments `width`, `height`, `tape_width`, `tape_height`). -/
structure Config where
  height : Nat
  width : Nat
  tapeHeight : Nat
  tapeWidth : Nat

/-- Class attribute `min_int = -128`. -/
def minInt : Int := -128

/-- Class attribute `max_int = 127`. -/
def maxInt : Int := 127

/-- Class attribute `min_int_seed = -16`, lower end of the mutation value range. -/
def minIntSeed : Int := -16

/-- Class attribute `max_int_seed = 16`, exclusive upper end of the mutation value range. -/
def maxIntSeed : Int := 16

/-- Class attribute `copy_cost = 256`: extra budget charged by a value-changing copy. -/
def copyCost : Int := 256

/-- Pointwise functional update of a grid: `grid[pos] = value`. -/
def writeCell (g : GridF) (p : Int × Int) (v : Int) : GridF :=
  fun q => if q = p then v else g q

/-- The five named heads of one run: instruction, tape, and a, b, c. -/
inductive Head where
  | i
  | t
  | a
  | b
  | c
deriving DecidableEq

/-- Functional update of the head-position table `coords`. -/
def setCoord (f : Head → Int × Int) (h : Head) (p : Int × Int) : Head → Int × Int :=
  fun h2 => if h2 = h then p else f h2

/-- The `char_to_num` dictionary: opcode characters are numbered 1..16
in declaration order. -/
def charToNum (c : Char) : Option Int :=
  if c = '@' then some 1
  else if c = '<' then some 2
  else if c = '>' then some 3
  else if c = '^' then some 4
  else if c = 'v' then some 5
  else if c = '+' then some 6
  else if c = '-' then some 7
  else if c = 'i' then some 8
  else if c = 't' then some 9
  else if c = 'a' then some 10
  else if c = 'b' then some 11
  else if c = 'c' then some 12
  else if c = '.' then some 13
  else if c = ',' then some 14
  else if c = '[' then some 15
  else if c = ']' then some 16
  else none

/-- The `num_to_char` dictionary: inverse of `charToNum`; every value outside
1..16 is unmapped (`none`), i.e. inert data. -/
def numToChar (n : Int) : Option Char :=
  if n = 1 then some '@'
  else if n = 2 then some '<'
  else if n = 3 then some '>'
  else if n = 4 then some '^'
  else if n = 5 then some 'v'
  else if n = 6 then some '+'
  else if n = 7 then some '-'
  else if n = 8 then some 'i'
  else if n = 9 then some 't'
  else if n = 10 then some 'a'
  else if n = 11 then some 'b'
  else if n = 12 then some 'c'
  else if n = 13 then some '.'
  else if n = 14 then some ','
  else if n = 15 then some '['
  else if n = 16 then some ']'
  else none

/-- The opcode character of a cell value, defaulting to a blank for inert data
(only used where the value is known to map to an opcode). -/
def opChar (n : Int) : Char := (numToChar n).getD ' '

/-- The `inv_direction` dictionary; characters outside the four directions are
returned unchanged (the dictionary is only ever consulted on direction characters). -/
def invDirection (c : Char) : Char :=
  if c = '<' then '>'
  else if c = '>' then '<'
  else if c = '^' then 'v'
  else if c = 'v' then '^'
  else c

/-- The `inv_bracket` dictionary. -/
def invBracket (c : Char) : Char :=
  if c = '[' then ']'
  else if c = ']' then '['
  else c

/-- `_update_coordinates`: move one cell in `direction` (if any), then wrap both
axes modulo the owning array's extent (Tape extents for the tape head, Grid
extents otherwise). `Int.emod` matches Python's `%` on negative operands. -/
def updateCoordinates (cfg : Config) (coord : Int × Int) (direction : Option Char)
    (head : Head) : Int × Int :=
  let x := coord.1
  let y := coord.2
  let moved : Int × Int :=
    match direction with
    | some '<' => (x, y - 1)
    | some '>' => (x, y + 1)
    | some '^' => (x - 1, y)
    | some 'v' => (x + 1, y)
    | _ => (x, y)
  if head = Head.t then
    (moved.1 % (cfg.tapeHeight : Int), moved.2 % (cfg.tapeWidth : Int))
  else
    (moved.1 % (cfg.height : Int), moved.2 % (cfg.width : Int))

/-- One scan step of the bracket resolver: `_update_coordinates(coord, direction, 'i')`. -/
def stepMove (cfg : Config) (sdir : Char) (p : Int × Int) : Int × Int :=
  updateCoordinates cfg p (some sdir) Head.i

/-- `k`-fold iteration of `stepMove`: the cell reached after `k` scan steps. -/
def iterMove (cfg : Config) (sdir : Char) : Nat → Int × Int → Int × Int
  | 0, p => p
  | k + 1, p => stepMove cfg sdir (iterMove cfg sdir k p)

/-- The number of scan steps after which a straight scan wraps back to its
start: the grid width for horizontal scans, the grid height for vertical ones. -/
def scanExtent (cfg : Config) (sdir : Char) : Nat :=
  if sdir = '<' ∨ sdir = '>' then cfg.width else cfg.height

/-- The actual scan direction used by `_get_matching_bracket`: reversed for a
closing bracket, unchanged for an opening one. -/
def scanDirOf (direction bracket : Char) : Char :=
  if bracket = ']' then invDirection direction else direction

/-- The `while True` loop of `_get_matching_bracket`, with explicit fuel.
Each iteration moves one cell, returns the start on a full wrap, updates the
nesting counter from the cell's opcode, and returns the cell once the counter
hits zero. `none` means the fuel ran out (proved unreachable for in-range
starts with fuel `height + width`). -/
def scanLoop (cfg : Config) (grid : GridF) (start : Int × Int)
    (sdir bracket oppBracket : Char) : Nat → Int × Int → Int → Option (Int × Int)
  | 0, _, _ => none
  | fuel + 1, coord, counter =>
    let coord2 := stepMove cfg sdir coord
    if coord2 = start then some coord2
    else
      let ch := numToChar (grid coord2)
      let counter2 :=
        if ch = some bracket then counter + 1
        else if ch = some oppBracket then counter - 1
        else counter
      if counter2 = 0 then some coord2
      else scanLoop cfg grid start sdir bracket oppBracket fuel coord2 counter2

/-- `_get_matching_bracket(starting_coord, direction, bracket)`: reverse the
scan direction for `]`, then run the counting scan with counter 1. The fuel
`height + width` dominates one full wrap; the `getD` fallback is never taken
for in-range starts. -/
def getMatchingBracket (cfg : Config) (grid : GridF) (startingCoord : Int × Int)
    (direction bracket : Char) : Int × Int :=
  (scanLoop cfg grid startingCoord (scanDirOf direction bracket) bracket
      (invBracket bracket) (cfg.height + cfg.width) startingCoord 1).getD startingCoord

/-- Contribution of one scanned cell to the nesting counter: +1 for the scanned
bracket itself, -1 for its opposite, 0 otherwise. -/
def bracketDelta (bracket oppBracket : Char) (v : Int) : Int :=
  if numToChar v = some bracket then 1
  else if numToChar v = some oppBracket then -1
  else 0

/-- Nesting depth of the scan after visiting the first `k` cells past the
start (the counter starts at 1). -/
def depthAfter (cfg : Config) (grid : GridF) (sdir bracket oppBracket : Char)
    (start : Int × Int) : Nat → Int
  | 0 => 1
  | k + 1 =>
    depthAfter cfg grid sdir bracket oppBracket start k +
      bracketDelta bracket oppBracket (grid (iterMove cfg sdir (k + 1) start))

/-- Modelled from the spec: the smallest step index `k`, among `rem` candidates
starting at `k0`, at which the nesting depth reaches 0. -/
def firstDepthZero (cfg : Config) (grid : GridF) (sdir bracket oppBracket : Char)
    (start : Int × Int) : Nat → Nat → Option Nat
  | _, 0 => none
  | k0, rem + 1 =>
    if depthAfter cfg grid sdir bracket oppBracket start k0 = 0 then some k0
    else firstDepthZero cfg grid sdir bracket oppBracket start (k0 + 1) rem

/-- Modelled from the spec: the bracket resolver's contract — the first cell
along the scan at which the depth counter (initialized to 1) reaches 0, or the
start position itself when no such cell exists within one full wrap. -/
def specMatchingBracket (cfg : Config) (grid : GridF) (start : Int × Int)
    (direction bracket : Char) : Int × Int :=
  let sdir := scanDirOf direction bracket
  match firstDepthZero cfg grid sdir bracket (invBracket bracket) start 1
      (scanExtent cfg sdir - 1) with
  | some k => iterMove cfg sdir k start
  | none => start

/-- The machine state of one `execute` run: head positions, the 2-slot head
selection stack (`cur` is `head_stack[0]`, `prev` is `head_stack[1]`), the
private tape, the shared grid, the instruction scan direction, and the
remaining step budget. -/
structure ExecState where
  coords : Head → Int × Int
  cur : Head
  prev : Head
  tape : GridF
  grid : GridF
  dir : Char
  step : Int

/-- Signed 8-bit wraparound, the behavior of `numpy.int8` addition. -/
def int8wrap (z : Int) : Int := (z + 128) % 256 - 128

/-- The `'<' | '>' | '^' | 'v'` dispatch case: with the instruction head
selected the scan direction changes; otherwise the selected head moves one
unit in that direction with its own wraparound. -/
def dirCase (cfg : Config) (s : ExecState) (direction : Char) : ExecState :=
  if s.cur = Head.i then { s with dir := direction }
  else
    let moved := updateCoordinates cfg (s.coords s.cur) (some direction) s.cur
    { s with coords := setCoord s.coords s.cur moved }

/-- The `'+' | '-'` dispatch case: add `d` (+1 or -1) to the tape cell under
the tape head, with signed 8-bit wraparound. -/
def tapeAdd (s : ExecState) (d : Int) : ExecState :=
  let tc := s.coords Head.t
  { s with tape := writeCell s.tape tc (int8wrap (s.tape tc + d)) }

/-- The head-select dispatch case: `head_stack.appendleft(char)` on a deque of
maximal length 2 makes the selected head current and the old current previous. -/
def selectCase (s : ExecState) (h : Head) : ExecState :=
  { s with cur := h, prev := s.cur }

/-- Source coordinate of a copy: the current head's position for `.`,
the previous head's position for `,`. -/
def copyFromCoord (s : ExecState) (c : Char) : Int × Int :=
  if c = '.' then s.coords s.cur else s.coords s.prev

/-- Destination coordinate of a copy: the previous head's position for `.`,
the current head's position for `,`. -/
def copyToCoord (s : ExecState) (c : Char) : Int × Int :=
  if c = '.' then s.coords s.prev else s.coords s.cur

/-- The `'.' | ','` dispatch case: both sides index the shared grid at the
respective head coordinates; the write and the extra `copy_cost` charge happen
only when the destination value differs from the source value. -/
def copyCase (s : ExecState) (c : Char) : ExecState :=
  if s.grid (copyToCoord s c) ≠ s.grid (copyFromCoord s c) then
    let g2 := writeCell s.grid (copyToCoord s c) (s.grid (copyFromCoord s c))
    { s with grid := g2, step := s.step - copyCost }
  else s

/-- The value tested by a bracket opcode: the tape cell under the current head
when the tape head is current, otherwise the grid cell under the current head. -/
def currentValue (s : ExecState) : Int :=
  if s.cur = Head.t then s.tape (s.coords s.cur) else s.grid (s.coords s.cur)

/-- The jump condition of line 226:
`char == '[' and n < 0 or char == ']' and n > 0`. -/
def jumpTriggered (br : Char) (v : Int) : Prop :=
  (br = '[' ∧ v < 0) ∨ (br = ']' ∧ 0 < v)

instance (br : Char) (v : Int) : Decidable (jumpTriggered br v) := by
  unfold jumpTriggered
  infer_instance

/-- The `'[' | ']'` dispatch case: when the jump condition holds the
instruction head is relocated to the bracket resolver's result. -/
def bracketCase (cfg : Config) (s : ExecState) (br : Char) : ExecState :=
  if jumpTriggered br (currentValue s) then
    let target := getMatchingBracket cfg s.grid (s.coords Head.i) s.dir br
    { s with coords := setCoord s.coords Head.i target }
  else s

/-- The `match char` dispatch of `execute`: classify the cell under the
instruction head via `num_to_char` and apply the opcode's effect. The final
catch-all mirrors `case _: raise Exception`. -/
def dispatchPhase (cfg : Config) (s : ExecState) : Except Unit ExecState :=
  match numToChar (s.grid (s.coords Head.i)) with
  | none => Except.ok s
  | some '@' => Except.ok s
  | some '<' => Except.ok (dirCase cfg s '<')
  | some '>' => Except.ok (dirCase cfg s '>')
  | some '^' => Except.ok (dirCase cfg s '^')
  | some 'v' => Except.ok (dirCase cfg s 'v')
  | some '+' => Except.ok (tapeAdd s 1)
  | some '-' => Except.ok (tapeAdd s (-1))
  | some 'i' => Except.ok (selectCase s Head.i)
  | some 't' => Except.ok (selectCase s Head.t)
  | some 'a' => Except.ok (selectCase s Head.a)
  | some 'b' => Except.ok (selectCase s Head.b)
  | some 'c' => Except.ok (selectCase s Head.c)
  | some '.' => Except.ok (copyCase s '.')
  | some ',' => Except.ok (copyCase s ',')
  | some '[' => Except.ok (bracketCase cfg s '[')
  | some ']' => Except.ok (bracketCase cfg s ']')
  | some _ => Except.error ()

/-- The unconditional post-dispatch advance of line 233: the instruction head
moves one cell in the current scan direction with Grid-space wraparound. -/
def advanceInstruction (cfg : Config) (m : ExecState) : ExecState :=
  let moved := updateCoordinates cfg (m.coords Head.i) (some m.dir) Head.i
  { m with coords := setCoord m.coords Head.i moved }

/-- One iteration of the `while step > 0` loop: decrement the budget, dispatch
the opcode under the instruction head, then advance the instruction head. -/
def execStep (cfg : Config) (s : ExecState) : Except Unit ExecState :=
  match dispatchPhase cfg { s with step := s.step - 1 } with
  | Except.ok m => Except.ok (advanceInstruction cfg m)
  | Except.error e => Except.error e

/-- The state built at the top of `execute`: every head except the tape head
starts at the entry coordinate, the tape head at the tape origin; the tape is
zeroed; `head_stack = deque('ti', maxlen=2)` holds `'t'` at index 0 (the
current head) and `'i'` at index 1 (the previous head), since a deque built
from an iterable appends its elements left to right. -/
def initState (_cfg : Config) (grid : GridF) (startCoord : Int × Int)
    (instructionDirection : Char) (steps : Int) : ExecState :=
  { coords := fun h =>
      match h with
      | Head.i => startCoord
      | Head.t => (0, 0)
      | Head.a => startCoord
      | Head.b => startCoord
      | Head.c => startCoord
    cur := Head.t
    prev := Head.i
    tape := fun _ => 0
    grid := grid
    dir := instructionDirection
    step := steps }

/-- The `while step > 0` loop with explicit fuel; each iteration consumes at
least one unit of budget, so fuel `steps.toNat` dominates the loop. -/
def execRun (cfg : Config) : Nat → ExecState → Except Unit ExecState
  | 0, s => Except.ok s
  | fuel + 1, s =>
    if 0 < s.step then
      match execStep cfg s with
      | Except.ok s2 => execRun cfg fuel s2
      | Except.error e => Except.error e
    else Except.ok s

/-- `execute(start_coord, instruction_direction, steps)`. -/
def execute (cfg : Config) (grid : GridF) (startCoord : Int × Int)
    (instructionDirection : Char) (steps : Int) : Except Unit ExecState :=
  execRun cfg steps.toNat (initState cfg grid startCoord instructionDirection steps)

/-- Projection of a known-successful engine result. -/
def okState (e : Except Unit ExecState) (fallback : ExecState) : ExecState :=
  match e with
  | Except.ok m => m
  | Except.error _ => fallback

/-- The classification produced by opcode dispatch. -/
inductive Op where
  | noop
  | dirOp (d : Char)
  | incOp
  | decOp
  | selectOp (h : Head)
  | copyOp (c : Char)
  | bracketOp (b : Char)
  | fatal
deriving DecidableEq

/-- The dispatch classification of a cell value, branch for branch the same
case analysis as `dispatchPhase`; `fatal` is the `case _: raise Exception` arm. -/
def classify (n : Int) : Op :=
  match numToChar n with
  | none => Op.noop
  | some '@' => Op.noop
  | some '<' => Op.dirOp '<'
  | some '>' => Op.dirOp '>'
  | some '^' => Op.dirOp '^'
  | some 'v' => Op.dirOp 'v'
  | some '+' => Op.incOp
  | some '-' => Op.decOp
  | some 'i' => Op.selectOp Head.i
  | some 't' => Op.selectOp Head.t
  | some 'a' => Op.selectOp Head.a
  | some 'b' => Op.selectOp Head.b
  | some 'c' => Op.selectOp Head.c
  | some '.' => Op.copyOp '.'
  | some ',' => Op.copyOp ','
  | some '[' => Op.bracketOp '['
  | some ']' => Op.bracketOp ']'
  | some _ => Op.fatal

/-- Inner loop of `seed` over one pattern row: resolve each character through
`char_to_num` and write it at the wrapped column; an unresolvable character
raises (the `assert` on `None` cannot succeed), leaving earlier writes in
place. The Boolean records success. -/
def seedRowGo (cfg : Config) (g : GridF) (iWrapped y : Int) :
    List Char → Nat → GridF × Bool
  | [], _ => (g, true)
  | c :: rest, j =>
    match charToNum c with
    | none => (g, false)
    | some number =>
      seedRowGo cfg (writeCell g (iWrapped, ((j : Int) + y) % (cfg.width : Int)) number)
        iWrapped y rest (j + 1)

/-- Outer loop of `seed` over the pattern rows. -/
def seedRows (cfg : Config) (g : GridF) (x y : Int) :
    List (List Char) → Nat → GridF × Bool
  | [], _ => (g, true)
  | row :: rest, i =>
    match seedRowGo cfg g (((i : Int) + x) % (cfg.height : Int)) y row 0 with
    | (g2, true) => seedRows cfg g2 x y rest (i + 1)
    | (g2, false) => (g2, false)

/-- `seed(seed, coord)`: write the pattern rows into the grid starting at
`coord`, wrapping rows modulo the height and columns modulo the width;
returns the resulting grid and whether every character resolved. -/
def seed (cfg : Config) (g : GridF) (pattern : List (List Char))
    (coord : Int × Int) : GridF × Bool :=
  seedRows cfg g coord.1 coord.2 pattern 0

/-- `np.random.randint(low, high)`: an arbitrary entropy source reduced into
the half-open range `[low, high)`. -/
def randintVal (low high : Int) (raw : Nat) : Int :=
  low + ((raw % (high - low).toNat : Nat) : Int)

/-- The fancy-indexed assignment `grid[rows, cols] = rand_numbers` applied
draw by draw; the draw with the highest index is written last and wins
collisions. -/
def mutateWrites (cfg : Config) (rawRows rawCols rawVals : Nat → Nat) :
    Nat → GridF → GridF
  | 0, g => g
  | k + 1, g =>
    writeCell (mutateWrites cfg rawRows rawCols rawVals k g)
      (randintVal 0 (cfg.height : Int) (rawRows k),
        randintVal 0 (cfg.width : Int) (rawCols k))
      (randintVal minIntSeed maxIntSeed (rawVals k))

/-- `mutate(prob)`: overwrite `numReplacements` pseudo-randomly chosen cells
with values drawn from `[min_int_seed, max_int_seed)`. The count
`int(prob * width * height)` (asserted positive) involves float arithmetic and
is taken here as the parameter `numReplacements`; the three randomness streams
are the row, column and value draws. -/
def mutate (cfg : Config) (g : GridF) (numReplacements : Nat)
    (rawRows rawCols rawVals : Nat → Nat) : GridF :=
  mutateWrites cfg rawRows rawCols rawVals numReplacements g

/-- A small configuration for concrete evaluations. -/
def cfg4 : Config := ⟨4, 4, 2, 2⟩

/-- A configuration with an 8 by 8 grid and a 4 by 4 tape. -/
def cfgT : Config := ⟨8, 8, 4, 4⟩

/-- A configuration with a 5 by 5 grid. -/
def cfg5 : Config := ⟨5, 5, 2, 2⟩

/-- The all-zero grid. -/
def zeroGrid : GridF := fun _ => 0

/-- The all-zero randomness stream. -/
def zfun : Nat → Nat := fun _ => 0

/-- A concrete machine state whose instruction head sits on a `,` copy opcode
while the current head is the tape head at tape coordinate (0, 0) and the
previous head is head `a` at grid coordinate (0, 1) holding value 5. -/
def sCopyT : ExecState :=
  { coords := fun h =>
      match h with
      | Head.i => (2, 2)
      | Head.t => (0, 0)
      | Head.a => (0, 1)
      | Head.b => (2, 2)
      | Head.c => (2, 2)
    cur := Head.t
    prev := Head.a
    tape := fun _ => 0
    grid := fun p => if p = ((2 : Int), (2 : Int)) then 14
      else if p = ((0 : Int), (1 : Int)) then 5 else 0
    dir := '>'
    step := 400 }

/-- A concrete grid holding `[` (code 15) at (0, 1) and `]` (code 16) at
(0, 3) on an otherwise empty row. -/
def gridB : GridF :=
  fun p => if p = ((0 : Int), (1 : Int)) then 15
    else if p = ((0 : Int), (3 : Int)) then 16 else 0

/-- `gridB` with an additional negative data value at (1, 0). -/
def gridJ : GridF := fun p => if p = ((1 : Int), (0 : Int)) then -3 else gridB p

/-- A concrete state whose instruction head sits on the `[` at (0, 1) of
`gridJ` while the current head is head `a` at (1, 0), which holds the negative
value -3, so the open bracket jumps. -/
def sJump : ExecState :=
  { coords := fun h =>
      match h with
      | Head.i => (0, 1)
      | Head.t => (0, 0)
      | Head.a => (1, 0)
      | Head.b => (0, 1)
      | Head.c => (0, 1)
    cur := Head.a
    prev := Head.i
    tape := fun _ => 0
    grid := gridJ
    dir := '>'
    step := 20 }

/-! ## Helper lemmas -/

/-- Every cell value is classified by `num_to_char` as unmapped or as exactly
one of the sixteen opcode characters. -/
lemma numToChar_none {n : Int} (h : ¬(1 ≤ n ∧ n ≤ 16)) : numToChar n = none := by
  have e1 : ¬n = 1 := by omega
  have e2 : ¬n = 2 := by omega
  have e3 : ¬n = 3 := by omega
  have e4 : ¬n = 4 := by omega
  have e5 : ¬n = 5 := by omega
  have e6 : ¬n = 6 := by omega
  have e7 : ¬n = 7 := by omega
  have e8 : ¬n = 8 := by omega
  have e9 : ¬n = 9 := by omega
  have e10 : ¬n = 10 := by omega
  have e11 : ¬n = 11 := by omega
  have e12 : ¬n = 12 := by omega
  have e13 : ¬n = 13 := by omega
  have e14 : ¬n = 14 := by omega
  have e15 : ¬n = 15 := by omega
  have e16 : ¬n = 16 := by omega
  unfold numToChar
  rw [if_neg e1, if_neg e2, if_neg e3, if_neg e4, if_neg e5, if_neg e6, if_neg e7,
    if_neg e8, if_neg e9, if_neg e10, if_neg e11, if_neg e12, if_neg e13, if_neg e14,
    if_neg e15, if_neg e16]

lemma numToChar_cases (n : Int) :
    numToChar n = none ∨ numToChar n = some '@' ∨ numToChar n = some '<' ∨
    numToChar n = some '>' ∨ numToChar n = some '^' ∨ numToChar n = some 'v' ∨
    numToChar n = some '+' ∨ numToChar n = some '-' ∨ numToChar n = some 'i' ∨
    numToChar n = some 't' ∨ numToChar n = some 'a' ∨ numToChar n = some 'b' ∨
    numToChar n = some 'c' ∨ numToChar n = some '.' ∨ numToChar n = some ',' ∨
    numToChar n = some '[' ∨ numToChar n = some ']' := by
  by_cases hb : 1 ≤ n ∧ n ≤ 16
  · obtain ⟨hb1, hb2⟩ := hb
    interval_cases n <;> decide
  · exact Or.inl (numToChar_none hb)

lemma opChar_eq {n : Int} {c : Char} (h : numToChar n = some c) : opChar n = c := by
  simp [opChar, h]

@[simp] lemma advanceInstruction_step (cfg : Config) (m : ExecState) :
    (advanceInstruction cfg m).step = m.step := rfl

@[simp] lemma advanceInstruction_grid (cfg : Config) (m : ExecState) :
    (advanceInstruction cfg m).grid = m.grid := rfl

@[simp] lemma advanceInstruction_dir (cfg : Config) (m : ExecState) :
    (advanceInstruction cfg m).dir = m.dir := rfl

@[simp] lemma advanceInstruction_coords_i (cfg : Config) (m : ExecState) :
    (advanceInstruction cfg m).coords Head.i =
      updateCoordinates cfg (m.coords Head.i) (some m.dir) Head.i := by
  simp [advanceInstruction, setCoord]

@[simp] lemma dirCase_step (cfg : Config) (s : ExecState) (d : Char) :
    (dirCase cfg s d).step = s.step := by
  unfold dirCase
  split <;> rfl

@[simp] lemma dirCase_grid (cfg : Config) (s : ExecState) (d : Char) :
    (dirCase cfg s d).grid = s.grid := by
  unfold dirCase
  split <;> rfl

@[simp] lemma tapeAdd_step (s : ExecState) (d : Int) : (tapeAdd s d).step = s.step := rfl

@[simp] lemma tapeAdd_grid (s : ExecState) (d : Int) : (tapeAdd s d).grid = s.grid := rfl

@[simp] lemma selectCase_step (s : ExecState) (h : Head) : (selectCase s h).step = s.step := rfl

@[simp] lemma selectCase_grid (s : ExecState) (h : Head) : (selectCase s h).grid = s.grid := rfl

@[simp] lemma bracketCase_step (cfg : Config) (s : ExecState) (br : Char) :
    (bracketCase cfg s br).step = s.step := by
  unfold bracketCase
  split <;> rfl

@[simp] lemma bracketCase_grid (cfg : Config) (s : ExecState) (br : Char) :
    (bracketCase cfg s br).grid = s.grid := by
  unfold bracketCase
  split <;> rfl

@[simp] lemma bracketCase_dir (cfg : Config) (s : ExecState) (br : Char) :
    (bracketCase cfg s br).dir = s.dir := by
  unfold bracketCase
  split <;> rfl

lemma bracketCase_coords_i (cfg : Config) (s : ExecState) (br : Char) :
    (bracketCase cfg s br).coords Head.i =
      if jumpTriggered br (currentValue s) then
        getMatchingBracket cfg s.grid (s.coords Head.i) s.dir br
      else s.coords Head.i := by
  unfold bracketCase
  split <;> simp [setCoord]

/-- A successful engine step is the dispatch phase followed by the
instruction-head advance. -/
lemma execStep_ok (cfg : Config) (s s2 : ExecState) (h : execStep cfg s = Except.ok s2) :
    ∃ m, dispatchPhase cfg { s with step := s.step - 1 } = Except.ok m ∧
      s2 = advanceInstruction cfg m := by
  unfold execStep at h
  rcases hd : dispatchPhase cfg { s with step := s.step - 1 } with e | m
  · rw [hd] at h
    simp at h
  · rw [hd] at h
    simp only [Except.ok.injEq] at h
    exact ⟨m, rfl, h.symm⟩

/-- A dispatch on anything except a copy opcode neither changes the grid nor
consumes extra budget. -/
lemma dispatch_nocopy (cfg : Config) (s m : ExecState)
    (h : dispatchPhase cfg s = Except.ok m)
    (h1 : numToChar (s.grid (s.coords Head.i)) ≠ some '.')
    (h2 : numToChar (s.grid (s.coords Head.i)) ≠ some ',') :
    m.step = s.step ∧ m.grid = s.grid := by
  rcases numToChar_cases (s.grid (s.coords Head.i)) with
    hc|hc|hc|hc|hc|hc|hc|hc|hc|hc|hc|hc|hc|hc|hc|hc|hc
  all_goals simp only [dispatchPhase, hc, Except.ok.injEq] at h
  all_goals try exact absurd hc h1
  all_goals try exact absurd hc h2
  all_goals subst h
  all_goals constructor <;> simp

/-! ## Claim theorems -/

/-- Claim C3, counterexample: at the start of an execution run the selection
stack is not `(current = instruction, previous = tape)`; on the concrete
initial state the current head is the tape head. -/
theorem exec_initial_stack_cex :
    ¬ ((initState cfg4 zeroGrid (0, 0) '>' 8).cur = Head.i ∧
      (initState cfg4 zeroGrid (0, 0) '>' 8).prev = Head.t) := by
  decide

/-- Claim C3, amended: at the start of every execution run the selection stack
holds `(current = tape, previous = instruction)`, so the first dispatched
opcode sees the tape head as current and the instruction head as previous. -/
theorem exec_initial_stack (cfg : Config) (grid : GridF) (startCoord : Int × Int)
    (d : Char) (steps : Int) :
    (initState cfg grid startCoord d steps).cur = Head.t ∧
      (initState cfg grid startCoord d steps).prev = Head.i :=
  ⟨rfl, rfl⟩

/-- Claim C1, code-bug evidence: on a state whose instruction head sits on the
copy opcode `,` with the tape head current (at tape coordinate (0, 0)) and
head `a` previous (at grid coordinate (0, 1) holding 5), the engine writes the
shared Grid at the tape head's coordinate and leaves the private Tape array
untouched — copies always address the Grid on both sides. -/
theorem copy_tape_side_uses_grid :
    numToChar (sCopyT.grid (sCopyT.coords Head.i)) = some ',' ∧
    sCopyT.cur = Head.t ∧ sCopyT.tape (0, 0) = 0 ∧ sCopyT.grid (0, 0) = 0 ∧
    (okState (execStep cfgT sCopyT) sCopyT).grid (0, 0) = 5 ∧
    (okState (execStep cfgT sCopyT) sCopyT).tape (0, 0) = 0 := by
  decide

/-- Claim C4: dispatch is total over the signed 8-bit value space — every cell
value is classified as a no-op or as one defined opcode, never as the fatal
unclassified branch, and the engine step never raises. -/
theorem dispatch_total (cfg : Config) (s : ExecState)
    (h1 : minInt ≤ s.grid (s.coords Head.i)) (h2 : s.grid (s.coords Head.i) ≤ maxInt) :
    classify (s.grid (s.coords Head.i)) ≠ Op.fatal ∧ execStep cfg s ≠ Except.error () := by
  rcases numToChar_cases (s.grid (s.coords Head.i)) with
    hc|hc|hc|hc|hc|hc|hc|hc|hc|hc|hc|hc|hc|hc|hc|hc|hc <;>
    exact ⟨by simp [classify, hc], by simp [execStep, dispatchPhase, hc]⟩

/-- Witness for `dispatch_total` at a concrete state. -/
theorem dispatch_total_witness :
    (minInt ≤ sCopyT.grid (sCopyT.coords Head.i) ∧
      sCopyT.grid (sCopyT.coords Head.i) ≤ maxInt) ∧
    (classify (sCopyT.grid (sCopyT.coords Head.i)) ≠ Op.fatal ∧
      execStep cfgT sCopyT ≠ Except.error ()) :=
  ⟨⟨by decide, by decide⟩, dispatch_total cfgT sCopyT (by decide) (by decide)⟩

/-- Claim C2, counterexample: seeding the pattern row `@x` (whose second
character resolves to no opcode and no value) raises the error, but only after
the first character has already been written: the Grid cell at the origin has
been mutated when the error occurs. -/
theorem seed_not_atomic_cex :
    charToNum 'x' = none ∧
    (seed cfg4 zeroGrid [['@', 'x']] (0, 0)).2 = false ∧
    (seed cfg4 zeroGrid [['@', 'x']] (0, 0)).1 (0, 0) = 1 ∧
    zeroGrid (0, 0) = 0 := by
  decide

/-- All-valid rows seed successfully. -/
lemma seedRowGo_valid (cfg : Config) (iW y : Int) (pre : List Char) :
    ∀ (g : GridF) (j : Nat), (∀ c ∈ pre, (charToNum c).isSome) →
      (seedRowGo cfg g iW y pre j).2 = true := by
  induction pre with
  | nil => intro g j _; rfl
  | cons c rest ih =>
    intro g j hpre
    obtain ⟨n, hn⟩ := Option.isSome_iff_exists.mp (hpre c (List.mem_cons_self c rest))
    simp only [seedRowGo, hn]
    exact ih _ (j + 1) (fun c2 h2 => hpre c2 (List.mem_cons_of_mem c h2))

/-- A row whose prefix is valid and whose next character is unresolvable seeds
the prefix, then stops with an error, keeping the prefix's writes. -/
lemma seedRowGo_invalid (cfg : Config) (iW y : Int) (suf : List Char) (bad : Char)
    (hbad : charToNum bad = none) (pre : List Char) :
    ∀ (g : GridF) (j : Nat), (∀ c ∈ pre, (charToNum c).isSome) →
      seedRowGo cfg g iW y (pre ++ bad :: suf) j =
        ((seedRowGo cfg g iW y pre j).1, false) := by
  induction pre with
  | nil => intro g j _; simp [seedRowGo, hbad]
  | cons c rest ih =>
    intro g j hpre
    obtain ⟨n, hn⟩ := Option.isSome_iff_exists.mp (hpre c (List.mem_cons_self c rest))
    simp only [List.cons_append, seedRowGo, hn]
    exact ih _ (j + 1) (fun c2 h2 => hpre c2 (List.mem_cons_of_mem c h2))

/-- Claim C2, amended: if a pattern row contains a character that resolves to
neither an opcode nor a value, seeding fails with the error only when that
character is reached; all Grid cells for the characters before it have already
been written (seed validation is not atomic). -/
theorem seed_stops_at_invalid (cfg : Config) (g : GridF) (x y : Int)
    (pre suf : List Char) (bad : Char)
    (hpre : ∀ c ∈ pre, (charToNum c).isSome) (hbad : charToNum bad = none) :
    seed cfg g [pre ++ bad :: suf] (x, y) = ((seed cfg g [pre] (x, y)).1, false) := by
  have h1 := seedRowGo_invalid cfg ((((0 : Nat) : Int) + x) % (cfg.height : Int)) y suf bad
    hbad pre g 0 hpre
  have h2 := seedRowGo_valid cfg ((((0 : Nat) : Int) + x) % (cfg.height : Int)) y pre g 0 hpre
  rcases hsr : seedRowGo cfg g ((((0 : Nat) : Int) + x) % (cfg.height : Int)) y pre 0 with ⟨G, b⟩
  rw [hsr] at h1 h2
  simp only at h2
  subst h2
  simp only [seed, seedRows, h1, hsr]

/-- Witness for `seed_stops_at_invalid` on the concrete pattern `@x`. -/
theorem seed_stops_at_invalid_witness :
    seed cfg4 zeroGrid [['@'] ++ 'x' :: []] (0, 0) =
      ((seed cfg4 zeroGrid [['@']] (0, 0)).1, false) :=
  seed_stops_at_invalid cfg4 zeroGrid 0 0 ['@'] [] 'x' (by decide) (by decide)

/-- Claim C8: after every opcode dispatch the engine advances the instruction
head by exactly one `updateCoordinates` move in the current scan direction
(Grid-space wraparound), and moves no other head in that phase. -/
theorem advance_after_dispatch (cfg : Config) (s m : ExecState)
    (h : dispatchPhase cfg { s with step := s.step - 1 } = Except.ok m) :
    execStep cfg s = Except.ok (advanceInstruction cfg m) ∧
    (advanceInstruction cfg m).coords Head.i =
      updateCoordinates cfg (m.coords Head.i) (some m.dir) Head.i ∧
    ∀ h2, h2 ≠ Head.i → (advanceInstruction cfg m).coords h2 = m.coords h2 := by
  refine ⟨?_, by simp, ?_⟩
  · unfold execStep
    rw [h]
  · intro h2 hne
    simp [advanceInstruction, setCoord, hne]

/-- Witness for `advance_after_dispatch` at a concrete state. -/
theorem advance_after_dispatch_witness :
    execStep cfgT sCopyT =
      Except.ok (advanceInstruction cfgT
        (okState (dispatchPhase cfgT { sCopyT with step := sCopyT.step - 1 }) sCopyT)) :=
  (advance_after_dispatch cfgT sCopyT
    (okState (dispatchPhase cfgT { sCopyT with step := sCopyT.step - 1 }) sCopyT) rfl).1

/-- A dispatch on a copy opcode produces exactly `copyCase`. -/
lemma dispatch_copy (cfg : Config) (s m : ExecState) (c : Char)
    (h : dispatchPhase cfg s = Except.ok m)
    (hc : numToChar (s.grid (s.coords Head.i)) = some c)
    (hcc : c = '.' ∨ c = ',') : m = copyCase s c := by
  rcases hcc with h2 | h2 <;> subst h2 <;>
    simp only [dispatchPhase, hc, Except.ok.injEq] at h <;> exact h.symm

lemma copyCase_step_eq (s : ExecState) (c : Char) :
    (copyCase s c).step =
      if s.grid (copyToCoord s c) ≠ s.grid (copyFromCoord s c) then s.step - copyCost
      else s.step := by
  unfold copyCase
  split <;> simp_all

/-- The copy's resulting grid always equals the written grid, also when the
write is skipped because the destination already holds the value. -/
lemma copyCase_grid_eq (s : ExecState) (c : Char) :
    (copyCase s c).grid = writeCell s.grid (copyToCoord s c) (s.grid (copyFromCoord s c)) := by
  unfold copyCase
  split
  case isTrue h => rfl
  case isFalse h =>
    push_neg at h
    funext q
    simp only [writeCell]
    split
    case isTrue hq => rw [hq, h]
    case isFalse hq => rfl

/-- Claim C6: every dispatched step costs exactly one budget unit, plus the
extra `copy_cost` exactly when a copy opcode changes its destination; an
equal-value copy costs only the base unit and leaves the grid equal to the
written grid (semantically indistinguishable from performing the write). -/
theorem step_cost (cfg : Config) (s s2 : ExecState) (h : execStep cfg s = Except.ok s2) :
    s2.step = s.step - 1 -
      (if (numToChar (s.grid (s.coords Head.i)) = some '.' ∨
            numToChar (s.grid (s.coords Head.i)) = some ',') ∧
          s.grid (copyToCoord s (opChar (s.grid (s.coords Head.i)))) ≠
            s.grid (copyFromCoord s (opChar (s.grid (s.coords Head.i)))) then copyCost
        else 0) ∧
    ((numToChar (s.grid (s.coords Head.i)) = some '.' ∨
        numToChar (s.grid (s.coords Head.i)) = some ',') →
      s2.grid = writeCell s.grid (copyToCoord s (opChar (s.grid (s.coords Head.i))))
        (s.grid (copyFromCoord s (opChar (s.grid (s.coords Head.i)))))) := by
  obtain ⟨m, hd, rfl⟩ := execStep_ok cfg s s2 h
  by_cases hdot : numToChar (s.grid (s.coords Head.i)) = some '.'
  · have hm : m = copyCase { s with step := s.step - 1 } '.' :=
      dispatch_copy cfg _ m '.' hd hdot (Or.inl rfl)
    subst hm
    rw [opChar_eq hdot]
    constructor
    · rw [advanceInstruction_step, copyCase_step_eq]
      by_cases hne : s.grid (copyToCoord s '.') = s.grid (copyFromCoord s '.')
      · simp [copyToCoord, copyFromCoord] at hne ⊢
        simp [hne]
      · simp [copyToCoord, copyFromCoord] at hne ⊢
        simp [hne, hdot]
    · intro _
      rw [advanceInstruction_grid, copyCase_grid_eq]
      rfl
  · by_cases hcomma : numToChar (s.grid (s.coords Head.i)) = some ','
    · have hm : m = copyCase { s with step := s.step - 1 } ',' :=
        dispatch_copy cfg _ m ',' hd hcomma (Or.inr rfl)
      subst hm
      rw [opChar_eq hcomma]
      constructor
      · rw [advanceInstruction_step, copyCase_step_eq]
        by_cases hne : s.grid (copyToCoord s ',') = s.grid (copyFromCoord s ',')
        · simp [copyToCoord, copyFromCoord] at hne ⊢
          simp [hne]
        · simp [copyToCoord, copyFromCoord] at hne ⊢
          simp [hne, hcomma]
      · intro _
        rw [advanceInstruction_grid, copyCase_grid_eq]
        rfl
    · obtain ⟨hs, hg⟩ := dispatch_nocopy cfg _ m hd hdot hcomma
      constructor
      · rw [advanceInstruction_step, hs]
        simp [hdot, hcomma]
      · intro hcopy
        rcases hcopy with hcopy | hcopy
        · exact absurd hcopy hdot
        · exact absurd hcopy hcomma

/-- Witness for `step_cost`: the concrete differing-value copy consumes the
base unit plus the copy cost. -/
theorem step_cost_witness :
    (okState (execStep cfgT sCopyT) sCopyT).step = 400 - 1 - 256 := by
  have h := step_cost cfgT sCopyT (okState (execStep cfgT sCopyT) sCopyT) rfl
  exact h.1.trans (by decide)

/-- Claim C7: a bracket opcode relocates the instruction head to the bracket
resolver's result exactly when `[` reads a strictly negative value or `]`
reads a strictly positive value at the current head (from the Tape when the
tape head is current, else from the Grid); zero never jumps. The post-dispatch
advance then moves one step past the landing cell. -/
theorem bracket_jump_iff (cfg : Config) (s s2 : ExecState) (br : Char)
    (h : execStep cfg s = Except.ok s2)
    (hbr : numToChar (s.grid (s.coords Head.i)) = some br)
    (hb2 : br = '[' ∨ br = ']') :
    s2.dir = s.dir ∧
    s2.coords Head.i =
      updateCoordinates cfg
        (if jumpTriggered br (currentValue s)
          then getMatchingBracket cfg s.grid (s.coords Head.i) s.dir br
          else s.coords Head.i)
        (some s.dir) Head.i := by
  obtain ⟨m, hd, rfl⟩ := execStep_ok cfg s s2 h
  have hm : m = bracketCase cfg { s with step := s.step - 1 } br := by
    rcases hb2 with h2 | h2 <;> subst h2 <;>
      simp only [dispatchPhase, hbr, Except.ok.injEq] at hd <;> exact hd.symm
  subst hm
  refine ⟨by rw [advanceInstruction_dir, bracketCase_dir], ?_⟩
  rw [advanceInstruction_coords_i, bracketCase_dir, bracketCase_coords_i]
  rfl

/-- Witness for `bracket_jump_iff`: the concrete `[` with a negative current
value jumps to the matching bracket and advances past it. -/
theorem bracket_jump_iff_witness :
    (okState (execStep cfg5 sJump) sJump).dir = sJump.dir ∧
    (okState (execStep cfg5 sJump) sJump).coords Head.i =
      updateCoordinates cfg5
        (if jumpTriggered '[' (currentValue sJump)
          then getMatchingBracket cfg5 sJump.grid (sJump.coords Head.i) sJump.dir '['
          else sJump.coords Head.i)
        (some sJump.dir) Head.i :=
  bracket_jump_iff cfg5 sJump (okState (execStep cfg5 sJump) sJump) '[' rfl (by decide)
    (Or.inl rfl)

/-! ## Movement lemmas for the bracket scan -/

@[simp] lemma scanExtent_left (cfg : Config) : scanExtent cfg '<' = cfg.width := rfl

@[simp] lemma scanExtent_right (cfg : Config) : scanExtent cfg '>' = cfg.width := rfl

@[simp] lemma scanExtent_up (cfg : Config) : scanExtent cfg '^' = cfg.height := rfl

@[simp] lemma scanExtent_down (cfg : Config) : scanExtent cfg 'v' = cfg.height := rfl

lemma scanExtent_pos_le (cfg : Config) (c : Char) (hh : 0 < cfg.height) (hw : 0 < cfg.width) :
    0 < scanExtent cfg c ∧ scanExtent cfg c ≤ cfg.height + cfg.width := by
  unfold scanExtent
  split <;> omega

lemma stepMove_left (cfg : Config) (x y : Int) :
    stepMove cfg '<' (x, y) = (x % (cfg.height : Int), (y - 1) % (cfg.width : Int)) := rfl

lemma stepMove_right (cfg : Config) (x y : Int) :
    stepMove cfg '>' (x, y) = (x % (cfg.height : Int), (y + 1) % (cfg.width : Int)) := rfl

lemma stepMove_up (cfg : Config) (x y : Int) :
    stepMove cfg '^' (x, y) = ((x - 1) % (cfg.height : Int), y % (cfg.width : Int)) := rfl

lemma stepMove_down (cfg : Config) (x y : Int) :
    stepMove cfg 'v' (x, y) = ((x + 1) % (cfg.height : Int), y % (cfg.width : Int)) := rfl

lemma emod_sub_one_emod (a n : Int) : (a % n - 1) % n = (a - 1) % n := by
  conv_rhs => rw [Int.sub_emod]
  rw [Int.sub_emod (a % n) 1, Int.emod_emod_of_dvd _ dvd_rfl]

lemma iterMove_right (cfg : Config) (x y : Int) (hx1 : 0 ≤ x) (hx2 : x < (cfg.height : Int))
    (hy1 : 0 ≤ y) (hy2 : y < (cfg.width : Int)) (k : Nat) :
    iterMove cfg '>' k (x, y) = (x, (y + (k : Int)) % (cfg.width : Int)) := by
  induction k with
  | zero =>
    simp only [iterMove, Nat.cast_zero, add_zero]
    rw [Int.emod_eq_of_lt hy1 hy2]
  | succ k ih =>
    show stepMove cfg '>' (iterMove cfg '>' k (x, y)) = _
    rw [ih, stepMove_right, Int.emod_eq_of_lt hx1 hx2, Int.emod_add_emod]
    congr 1
    push_cast
    ring

lemma iterMove_left (cfg : Config) (x y : Int) (hx1 : 0 ≤ x) (hx2 : x < (cfg.height : Int))
    (hy1 : 0 ≤ y) (hy2 : y < (cfg.width : Int)) (k : Nat) :
    iterMove cfg '<' k (x, y) = (x, (y - (k : Int)) % (cfg.width : Int)) := by
  induction k with
  | zero =>
    simp only [iterMove, Nat.cast_zero, sub_zero]
    rw [Int.emod_eq_of_lt hy1 hy2]
  | succ k ih =>
    show stepMove cfg '<' (iterMove cfg '<' k (x, y)) = _
    rw [ih, stepMove_left, Int.emod_eq_of_lt hx1 hx2, emod_sub_one_emod]
    congr 1
    push_cast
    ring

lemma iterMove_down (cfg : Config) (x y : Int) (hx1 : 0 ≤ x) (hx2 : x < (cfg.height : Int))
    (hy1 : 0 ≤ y) (hy2 : y < (cfg.width : Int)) (k : Nat) :
    iterMove cfg 'v' k (x, y) = ((x + (k : Int)) % (cfg.height : Int), y) := by
  induction k with
  | zero =>
    simp only [iterMove, Nat.cast_zero, add_zero]
    rw [Int.emod_eq_of_lt hx1 hx2]
  | succ k ih =>
    show stepMove cfg 'v' (iterMove cfg 'v' k (x, y)) = _
    rw [ih, stepMove_down, Int.emod_eq_of_lt hy1 hy2, Int.emod_add_emod]
    congr 1
    push_cast
    ring

lemma iterMove_up (cfg : Config) (x y : Int) (hx1 : 0 ≤ x) (hx2 : x < (cfg.height : Int))
    (hy1 : 0 ≤ y) (hy2 : y < (cfg.width : Int)) (k : Nat) :
    iterMove cfg '^' k (x, y) = ((x - (k : Int)) % (cfg.height : Int), y) := by
  induction k with
  | zero =>
    simp only [iterMove, Nat.cast_zero, sub_zero]
    rw [Int.emod_eq_of_lt hx1 hx2]
  | succ k ih =>
    show stepMove cfg '^' (iterMove cfg '^' k (x, y)) = _
    rw [ih, stepMove_up, Int.emod_eq_of_lt hy1 hy2, emod_sub_one_emod]
    congr 1
    push_cast
    ring

/-- One full scan wrap returns to the start position. -/
lemma iterMove_extent (cfg : Config) (x y : Int)
    (hx1 : 0 ≤ x) (hx2 : x < (cfg.height : Int)) (hy1 : 0 ≤ y) (hy2 : y < (cfg.width : Int))
    (sdir : Char) (hsdir : sdir = '<' ∨ sdir = '>' ∨ sdir = '^' ∨ sdir = 'v') :
    iterMove cfg sdir (scanExtent cfg sdir) (x, y) = (x, y) := by
  rcases hsdir with h | h | h | h <;> subst h
  · rw [scanExtent_left, iterMove_left cfg x y hx1 hx2 hy1 hy2]
    rw [show y - ((cfg.width : Nat) : Int) = y + (cfg.width : Int) * (-1) by push_cast; ring,
      Int.add_mul_emod_self_left, Int.emod_eq_of_lt hy1 hy2]
  · rw [scanExtent_right, iterMove_right cfg x y hx1 hx2 hy1 hy2]
    rw [show y + ((cfg.width : Nat) : Int) = y + (cfg.width : Int) * 1 by push_cast; ring,
      Int.add_mul_emod_self_left, Int.emod_eq_of_lt hy1 hy2]
  · rw [scanExtent_up, iterMove_up cfg x y hx1 hx2 hy1 hy2]
    rw [show x - ((cfg.height : Nat) : Int) = x + (cfg.height : Int) * (-1) by push_cast; ring,
      Int.add_mul_emod_self_left, Int.emod_eq_of_lt hx1 hx2]
  · rw [scanExtent_down, iterMove_down cfg x y hx1 hx2 hy1 hy2]
    rw [show x + ((cfg.height : Nat) : Int) = x + (cfg.height : Int) * 1 by push_cast; ring,
      Int.add_mul_emod_self_left, Int.emod_eq_of_lt hx1 hx2]

lemma emod_shift_inj {y w : Int} (a b : Int) (hw : 0 < w)
    (h : (y + a) % w = (y + b) % w) : w ∣ (b - a) := by
  have h2 := Int.emod_eq_emod_iff_emod_sub_eq_zero.mp h
  rw [show (y + a) - (y + b) = a - b by ring] at h2
  have h3 : w ∣ (a - b) := Int.dvd_of_emod_eq_zero h2
  have h4 : b - a = -(a - b) := by ring
  rw [h4]
  exact Dvd.dvd.neg_right h3

/-- Within one wrap all scanned positions are distinct. -/
lemma iterMove_ne (cfg : Config) (x y : Int)
    (hx1 : 0 ≤ x) (hx2 : x < (cfg.height : Int)) (hy1 : 0 ≤ y) (hy2 : y < (cfg.width : Int))
    (sdir : Char) (hsdir : sdir = '<' ∨ sdir = '>' ∨ sdir = '^' ∨ sdir = 'v')
    (a b : Nat) (hab : a < b) (hbE : b < scanExtent cfg sdir) :
    iterMove cfg sdir a (x, y) ≠ iterMove cfg sdir b (x, y) := by
  intro heq
  have hdvdle : ∀ n : Int, 0 < n → n ∣ ((b : Int) - (a : Int)) → n ≤ (b : Int) - (a : Int) :=
    fun n hn hd => Int.le_of_dvd (by omega) hd
  rcases hsdir with h | h | h | h <;> subst h
  · rw [scanExtent_left] at hbE
    rw [iterMove_left cfg x y hx1 hx2 hy1 hy2, iterMove_left cfg x y hx1 hx2 hy1 hy2,
      Prod.mk.injEq] at heq
    have hd := @emod_shift_inj y ((cfg.width : Int)) (-(a : Int)) (-(b : Int)) (by omega)
      (by rw [show y + -(a : Int) = y - (a : Int) by ring, show y + -(b : Int) = y - (b : Int) by ring]
          exact heq.2)
    rw [show -(b : Int) - -(a : Int) = -((b : Int) - (a : Int)) by ring] at hd
    have hd2 := (dvd_neg.mp hd)
    have := hdvdle ((cfg.width : Int)) (by omega) hd2
    omega
  · rw [scanExtent_right] at hbE
    rw [iterMove_right cfg x y hx1 hx2 hy1 hy2, iterMove_right cfg x y hx1 hx2 hy1 hy2,
      Prod.mk.injEq] at heq
    have hd := emod_shift_inj (a : Int) (b : Int) (by omega) heq.2
    have := hdvdle ((cfg.width : Int)) (by omega) hd
    omega
  · rw [scanExtent_up] at hbE
    rw [iterMove_up cfg x y hx1 hx2 hy1 hy2, iterMove_up cfg x y hx1 hx2 hy1 hy2,
      Prod.mk.injEq] at heq
    have hd := @emod_shift_inj x ((cfg.height : Int)) (-(a : Int)) (-(b : Int)) (by omega)
      (by rw [show x + -(a : Int) = x - (a : Int) by ring, show x + -(b : Int) = x - (b : Int) by ring]
          exact heq.1)
    rw [show -(b : Int) - -(a : Int) = -((b : Int) - (a : Int)) by ring] at hd
    have hd2 := (dvd_neg.mp hd)
    have := hdvdle ((cfg.height : Int)) (by omega) hd2
    omega
  · rw [scanExtent_down] at hbE
    rw [iterMove_down cfg x y hx1 hx2 hy1 hy2, iterMove_down cfg x y hx1 hx2 hy1 hy2,
      Prod.mk.injEq] at heq
    have hd := emod_shift_inj (a : Int) (b : Int) (by omega) heq.1
    have := hdvdle ((cfg.height : Int)) (by omega) hd
    omega

/-- The reverse scan step undoes one forward scan step. -/
lemma stepMove_inv (cfg : Config) (x y : Int)
    (hx1 : 0 ≤ x) (hx2 : x < (cfg.height : Int)) (hy1 : 0 ≤ y) (hy2 : y < (cfg.width : Int))
    (sdir : Char) (hsdir : sdir = '<' ∨ sdir = '>' ∨ sdir = '^' ∨ sdir = 'v') (m : Nat) :
    stepMove cfg (invDirection sdir) (iterMove cfg sdir (m + 1) (x, y)) =
      iterMove cfg sdir m (x, y) := by
  rcases hsdir with h | h | h | h <;> subst h
  · rw [show invDirection '<' = '>' from rfl, iterMove_left cfg x y hx1 hx2 hy1 hy2,
      stepMove_right, Int.emod_eq_of_lt hx1 hx2, Int.emod_add_emod,
      iterMove_left cfg x y hx1 hx2 hy1 hy2]
    congr 1
    push_cast
    ring
  · rw [show invDirection '>' = '<' from rfl, iterMove_right cfg x y hx1 hx2 hy1 hy2,
      stepMove_left, Int.emod_eq_of_lt hx1 hx2, emod_sub_one_emod,
      iterMove_right cfg x y hx1 hx2 hy1 hy2]
    congr 1
    push_cast
    ring
  · rw [show invDirection '^' = 'v' from rfl, iterMove_up cfg x y hx1 hx2 hy1 hy2,
      stepMove_down, Int.emod_eq_of_lt hy1 hy2, Int.emod_add_emod,
      iterMove_up cfg x y hx1 hx2 hy1 hy2]
    congr 1
    push_cast
    ring
  · rw [show invDirection 'v' = '^' from rfl, iterMove_down cfg x y hx1 hx2 hy1 hy2,
      stepMove_up, Int.emod_eq_of_lt hy1 hy2, emod_sub_one_emod,
      iterMove_down cfg x y hx1 hx2 hy1 hy2]
    congr 1
    push_cast
    ring

/-- A mutation value draw lands in `[min_int_seed, max_int_seed)`. -/
lemma randintVal_seed_range (raw : Nat) :
    minIntSeed ≤ randintVal minIntSeed maxIntSeed raw ∧
      randintVal minIntSeed maxIntSeed raw < maxIntSeed := by
  unfold randintVal minIntSeed maxIntSeed
  have h32 : ((16 : Int) - -16).toNat = 32 := rfl
  rw [h32]
  have hlt : raw % 32 < 32 := Nat.mod_lt _ (by norm_num)
  omega

/-- Every cell after the mutation writes is unchanged or holds a drawn value
from the seed range. -/
lemma mutateWrites_range (cfg : Config) (rawR rawC rawV : Nat → Nat) (g : GridF)
    (p : Int × Int) (n : Nat) :
    mutateWrites cfg rawR rawC rawV n g p = g p ∨
      (minIntSeed ≤ mutateWrites cfg rawR rawC rawV n g p ∧
        mutateWrites cfg rawR rawC rawV n g p < maxIntSeed) := by
  induction n with
  | zero => exact Or.inl rfl
  | succ k ih =>
    simp only [mutateWrites, writeCell]
    split
    · exact Or.inr (randintVal_seed_range (rawV k))
    · exact ih

/-- Claim C10: every cell value written by mutate lies in
`[min_int_seed, max_int_seed) = [-16, 15]`; in particular the `]` opcode
(encoded 16) can never be created by mutation, while any value of the range —
including every opcode encoding 1 through 15 — can be produced by a suitable
draw. -/
theorem mutate_range (cfg : Config) (g : GridF) (n : Nat)
    (rawRows rawCols rawVals : Nat → Nat) (p : Int × Int) (hn : 0 < n) :
    (mutate cfg g n rawRows rawCols rawVals p = g p ∨
      (minIntSeed ≤ mutate cfg g n rawRows rawCols rawVals p ∧
        mutate cfg g n rawRows rawCols rawVals p < maxIntSeed)) ∧
    (mutate cfg g n rawRows rawCols rawVals p = 16 → g p = 16) ∧
    (∀ v : Int, minIntSeed ≤ v → v < maxIntSeed →
      ∃ rawVals2 : Nat → Nat,
        mutate cfg g n rawRows rawCols rawVals2
          (randintVal 0 (cfg.height : Int) (rawRows (n - 1)),
            randintVal 0 (cfg.width : Int) (rawCols (n - 1))) = v) := by
  refine ⟨mutateWrites_range cfg rawRows rawCols rawVals g p n, ?_, ?_⟩
  · intro h16
    unfold mutate at h16
    rcases mutateWrites_range cfg rawRows rawCols rawVals g p n with he | ⟨_, hlt⟩
    · exact he.symm.trans h16
    · rw [h16] at hlt
      norm_num [maxIntSeed] at hlt
  · intro v hv1 hv2
    obtain ⟨m, rfl⟩ : ∃ m, n = m + 1 := ⟨n - 1, by omega⟩
    refine ⟨fun _ => (v - minIntSeed).toNat, ?_⟩
    show mutateWrites cfg rawRows rawCols (fun _ => (v - minIntSeed).toNat) (m + 1) g _ = v
    simp only [mutateWrites, writeCell]
    split
    case isFalse hq => exact absurd rfl hq
    case isTrue hq =>
      simp only [minIntSeed, maxIntSeed] at hv1 hv2 ⊢
      unfold randintVal
      have h32 : ((16 : Int) - -16).toNat = 32 := rfl
      rw [h32]
      omega

/-! ## The bracket resolver meets its contract -/

lemma counter_if_eq (bracket oppB : Char) (v counter : Int) :
    (if numToChar v = some bracket then counter + 1
      else if numToChar v = some oppB then counter - 1 else counter) =
      counter + bracketDelta bracket oppB v := by
  unfold bracketDelta
  split_ifs <;> omega

lemma bracketDelta_zero {br opp : Char} {v : Int} (h1 : numToChar v ≠ some br)
    (h2 : numToChar v ≠ some opp) : bracketDelta br opp v = 0 := by
  unfold bracketDelta
  rw [if_neg h1, if_neg h2]

lemma scanLoop_wrap (cfg : Config) (grid : GridF) (start : Int × Int)
    (sdir bracket oppB : Char) (fuel : Nat) (coord : Int × Int) (counter : Int)
    (h : stepMove cfg sdir coord = start) :
    scanLoop cfg grid start sdir bracket oppB (fuel + 1) coord counter = some start := by
  simp only [scanLoop]
  rw [h, if_pos rfl]

lemma scanLoop_stop (cfg : Config) (grid : GridF) (start : Int × Int)
    (sdir bracket oppB : Char) (fuel : Nat) (coord : Int × Int) (counter : Int)
    (h : stepMove cfg sdir coord ≠ start)
    (h0 : counter + bracketDelta bracket oppB (grid (stepMove cfg sdir coord)) = 0) :
    scanLoop cfg grid start sdir bracket oppB (fuel + 1) coord counter =
      some (stepMove cfg sdir coord) := by
  simp only [scanLoop]
  rw [if_neg h, counter_if_eq, if_pos h0]

lemma scanLoop_go (cfg : Config) (grid : GridF) (start : Int × Int)
    (sdir bracket oppB : Char) (fuel : Nat) (coord : Int × Int) (counter : Int)
    (h : stepMove cfg sdir coord ≠ start)
    (h0 : counter + bracketDelta bracket oppB (grid (stepMove cfg sdir coord)) ≠ 0) :
    scanLoop cfg grid start sdir bracket oppB (fuel + 1) coord counter =
      scanLoop cfg grid start sdir bracket oppB fuel (stepMove cfg sdir coord)
        (counter + bracketDelta bracket oppB (grid (stepMove cfg sdir coord))) := by
  simp only [scanLoop]
  rw [if_neg h, counter_if_eq, if_neg h0]

/-- The scan, started `j` steps into its sweep with the matching depth
counter, returns the claimed first-depth-zero cell, or the start after a full
wrap — and never runs out of fuel. -/
lemma scanLoop_spec (cfg : Config) (grid : GridF) (x y : Int) (sdir bracket oppB : Char)
    (hh : 0 < cfg.height) (hw : 0 < cfg.width)
    (hx1 : 0 ≤ x) (hx2 : x < (cfg.height : Int)) (hy1 : 0 ≤ y) (hy2 : y < (cfg.width : Int))
    (hsdir : sdir = '<' ∨ sdir = '>' ∨ sdir = '^' ∨ sdir = 'v') :
    ∀ (fuel j : Nat) (counter : Int), j + 1 ≤ scanExtent cfg sdir →
      scanExtent cfg sdir ≤ fuel + j →
      counter = depthAfter cfg grid sdir bracket oppB (x, y) j →
      scanLoop cfg grid (x, y) sdir bracket oppB fuel (iterMove cfg sdir j (x, y)) counter =
        some (match firstDepthZero cfg grid sdir bracket oppB (x, y) (j + 1)
            (scanExtent cfg sdir - 1 - j) with
          | some k => iterMove cfg sdir k (x, y)
          | none => (x, y)) := by
  intro fuel
  induction fuel with
  | zero => intro j counter h1 h2 h3; omega
  | succ fuel ih =>
    intro j counter h1 h2 h3
    have hstep : stepMove cfg sdir (iterMove cfg sdir j (x, y)) =
        iterMove cfg sdir (j + 1) (x, y) := rfl
    by_cases hwrap : j + 1 = scanExtent cfg sdir
    · have hc2 : stepMove cfg sdir (iterMove cfg sdir j (x, y)) = (x, y) := by
        rw [hstep, hwrap]
        exact iterMove_extent cfg x y hx1 hx2 hy1 hy2 sdir hsdir
      rw [scanLoop_wrap cfg grid (x, y) sdir bracket oppB fuel _ counter hc2]
      have hz : scanExtent cfg sdir - 1 - j = 0 := by omega
      rw [hz]
      rfl
    · have hj1 : j + 1 < scanExtent cfg sdir := by omega
      have hne : stepMove cfg sdir (iterMove cfg sdir j (x, y)) ≠ (x, y) := by
        rw [hstep]
        intro hcontra
        exact iterMove_ne cfg x y hx1 hx2 hy1 hy2 sdir hsdir 0 (j + 1) (by omega) hj1
          hcontra.symm
      have hd1 : depthAfter cfg grid sdir bracket oppB (x, y) (j + 1) =
          counter + bracketDelta bracket oppB (grid (iterMove cfg sdir (j + 1) (x, y))) := by
        rw [h3]
        rfl
      have hEsplit : scanExtent cfg sdir - 1 - j =
          (scanExtent cfg sdir - 1 - (j + 1)) + 1 := by omega
      by_cases hz : depthAfter cfg grid sdir bracket oppB (x, y) (j + 1) = 0
      · rw [scanLoop_stop cfg grid (x, y) sdir bracket oppB fuel _ counter hne
          (by rw [hstep, ← hd1]; exact hz)]
        rw [hstep, hEsplit]
        simp only [firstDepthZero]
        rw [if_pos hz]
      · rw [scanLoop_go cfg grid (x, y) sdir bracket oppB fuel _ counter hne
          (by rw [hstep, ← hd1]; exact hz)]
        rw [hstep, ← hd1]
        rw [ih (j + 1) (depthAfter cfg grid sdir bracket oppB (x, y) (j + 1)) hj1
          (by omega) rfl]
        rw [hEsplit]
        simp only [firstDepthZero]
        rw [if_neg hz]

/-- Claim C5: the bracket resolver always terminates within its fuel and
returns the first position along the scan at which the nesting depth
(initialized to 1) reaches 0, or the start position itself when the scan wraps
the whole grid without the depth reaching 0 — the defined unbalanced-bracket
fallback. -/
theorem bracket_scan_characterization (cfg : Config) (grid : GridF) (x y : Int)
    (direction bracket : Char)
    (hh : 0 < cfg.height) (hw : 0 < cfg.width)
    (hx1 : 0 ≤ x) (hx2 : x < (cfg.height : Int)) (hy1 : 0 ≤ y) (hy2 : y < (cfg.width : Int))
    (hdir : direction = '<' ∨ direction = '>' ∨ direction = '^' ∨ direction = 'v') :
    scanLoop cfg grid (x, y) (scanDirOf direction bracket) bracket (invBracket bracket)
        (cfg.height + cfg.width) (x, y) 1 =
      some (specMatchingBracket cfg grid (x, y) direction bracket) ∧
    getMatchingBracket cfg grid (x, y) direction bracket =
      specMatchingBracket cfg grid (x, y) direction bracket := by
  have hsdir : scanDirOf direction bracket = '<' ∨ scanDirOf direction bracket = '>' ∨
      scanDirOf direction bracket = '^' ∨ scanDirOf direction bracket = 'v' := by
    rcases hdir with h | h | h | h <;> subst h <;> unfold scanDirOf invDirection <;>
      split <;> decide
  have hE := scanExtent_pos_le cfg (scanDirOf direction bracket) hh hw
  have h := scanLoop_spec cfg grid x y (scanDirOf direction bracket) bracket
    (invBracket bracket) hh hw hx1 hx2 hy1 hy2 hsdir (cfg.height + cfg.width) 0 1
    (by omega) (by omega) rfl
  simp only [Nat.zero_add, Nat.sub_zero] at h
  have hcoord : iterMove cfg (scanDirOf direction bracket) 0 (x, y) = (x, y) := rfl
  rw [hcoord] at h
  have hspec : specMatchingBracket cfg grid (x, y) direction bracket =
      (match firstDepthZero cfg grid (scanDirOf direction bracket) bracket
          (invBracket bracket) (x, y) 1 (scanExtent cfg (scanDirOf direction bracket) - 1) with
        | some k => iterMove cfg (scanDirOf direction bracket) k (x, y)
        | none => (x, y)) := rfl
  refine ⟨?_, ?_⟩
  · rw [hspec]
    exact h
  · unfold getMatchingBracket
    rw [h, hspec]
    rfl

/-- Witness for `bracket_scan_characterization` on the concrete bracket row. -/
theorem bracket_scan_characterization_witness :
    scanLoop cfg5 gridB (0, 1) (scanDirOf '>' '[') '[' (invBracket '[')
        (cfg5.height + cfg5.width) (0, 1) 1 =
      some (specMatchingBracket cfg5 gridB (0, 1) '>' '[') ∧
    getMatchingBracket cfg5 gridB (0, 1) '>' '[' =
      specMatchingBracket cfg5 gridB (0, 1) '>' '[' :=
  bracket_scan_characterization cfg5 gridB 0 1 '>' '[' (by decide) (by decide) (by decide)
    (by decide) (by decide) (by decide) (Or.inr (Or.inl rfl))

/-- Witness for `mutate_range` on a single all-zero draw. -/
theorem mutate_range_witness :
    mutate cfg4 zeroGrid 1 zfun zfun zfun (0, 0) = zeroGrid (0, 0) ∨
      (minIntSeed ≤ mutate cfg4 zeroGrid 1 zfun zfun zfun (0, 0) ∧
        mutate cfg4 zeroGrid 1 zfun zfun zfun (0, 0) < maxIntSeed) :=
  (mutate_range cfg4 zeroGrid 1 zfun zfun zfun (0, 0) (by decide)).1

/-- Forward scan over a clean balanced pair: from any cell strictly before the
closing bracket the scan keeps depth 1 over the plain cells and stops at the
closing bracket. -/
lemma scanLoop_pair_forward (cfg : Config) (grid : GridF) (x y : Int) (dir : Char)
    (hx1 : 0 ≤ x) (hx2 : x < (cfg.height : Int)) (hy1 : 0 ≤ y) (hy2 : y < (cfg.width : Int))
    (hdir : dir = '<' ∨ dir = '>' ∨ dir = '^' ∨ dir = 'v')
    (d : Nat) (hd2 : d < scanExtent cfg dir)
    (hq : numToChar (grid (iterMove cfg dir d (x, y))) = some ']')
    (hmid : ∀ k, 0 < k → k < d →
      numToChar (grid (iterMove cfg dir k (x, y))) ≠ some '[' ∧
      numToChar (grid (iterMove cfg dir k (x, y))) ≠ some ']') :
    ∀ (fuel j : Nat), j < d → d ≤ fuel + j →
      scanLoop cfg grid (x, y) dir '[' ']' fuel (iterMove cfg dir j (x, y)) 1 =
        some (iterMove cfg dir d (x, y)) := by
  intro fuel
  induction fuel with
  | zero => intro j h1 h2; omega
  | succ fuel ih =>
    intro j h1 h2
    have hstep : stepMove cfg dir (iterMove cfg dir j (x, y)) =
        iterMove cfg dir (j + 1) (x, y) := rfl
    have hne : stepMove cfg dir (iterMove cfg dir j (x, y)) ≠ (x, y) := by
      rw [hstep]
      intro hcontra
      exact iterMove_ne cfg x y hx1 hx2 hy1 hy2 dir hdir 0 (j + 1) (by omega) (by omega)
        hcontra.symm
    by_cases hj : j + 1 = d
    · have hz : (1 : Int) + bracketDelta '[' ']'
          (grid (stepMove cfg dir (iterMove cfg dir j (x, y)))) = 0 := by
        rw [hstep, hj]
        unfold bracketDelta
        rw [hq]
        simp
      rw [scanLoop_stop cfg grid (x, y) dir '[' ']' fuel _ 1 hne hz, hstep, hj]
    · have hj2 : j + 1 < d := by omega
      have hdelta : bracketDelta '[' ']' (grid (iterMove cfg dir (j + 1) (x, y))) = 0 :=
        bracketDelta_zero (hmid (j + 1) (by omega) hj2).1 (hmid (j + 1) (by omega) hj2).2
      have hz : (1 : Int) + bracketDelta '[' ']'
          (grid (stepMove cfg dir (iterMove cfg dir j (x, y)))) ≠ 0 := by
        rw [hstep, hdelta]
        norm_num
      rw [scanLoop_go cfg grid (x, y) dir '[' ']' fuel _ 1 hne hz, hstep, hdelta, add_zero]
      exact ih (j + 1) hj2 (by omega)

/-- Reverse scan over a clean balanced pair: from the closing bracket the
reversed scan walks back over the plain cells and stops at the opening
bracket. -/
lemma scanLoop_pair_backward (cfg : Config) (grid : GridF) (x y : Int) (dir : Char)
    (hx1 : 0 ≤ x) (hx2 : x < (cfg.height : Int)) (hy1 : 0 ≤ y) (hy2 : y < (cfg.width : Int))
    (hdir : dir = '<' ∨ dir = '>' ∨ dir = '^' ∨ dir = 'v')
    (d : Nat) (hd2 : d < scanExtent cfg dir)
    (hp : numToChar (grid (x, y)) = some '[')
    (hmid : ∀ k, 0 < k → k < d →
      numToChar (grid (iterMove cfg dir k (x, y))) ≠ some '[' ∧
      numToChar (grid (iterMove cfg dir k (x, y))) ≠ some ']') :
    ∀ (fuel j : Nat), j < d → d ≤ fuel + j →
      scanLoop cfg grid (iterMove cfg dir d (x, y)) (invDirection dir) ']' '[' fuel
        (iterMove cfg dir (d - j) (x, y)) 1 = some (x, y) := by
  intro fuel
  induction fuel with
  | zero => intro j h1 h2; omega
  | succ fuel ih =>
    intro j h1 h2
    have hsub : d - j = (d - j - 1) + 1 := by omega
    have hstep : stepMove cfg (invDirection dir) (iterMove cfg dir (d - j) (x, y)) =
        iterMove cfg dir (d - j - 1) (x, y) := by
      rw [hsub]
      exact stepMove_inv cfg x y hx1 hx2 hy1 hy2 dir hdir (d - j - 1)
    have hne : stepMove cfg (invDirection dir) (iterMove cfg dir (d - j) (x, y)) ≠
        iterMove cfg dir d (x, y) := by
      rw [hstep]
      exact iterMove_ne cfg x y hx1 hx2 hy1 hy2 dir hdir (d - j - 1) d (by omega) hd2
    by_cases hj : d - j - 1 = 0
    · have hz : (1 : Int) + bracketDelta ']' '['
          (grid (stepMove cfg (invDirection dir) (iterMove cfg dir (d - j) (x, y)))) = 0 := by
        rw [hstep, hj]
        show (1 : Int) + bracketDelta ']' '[' (grid (x, y)) = 0
        unfold bracketDelta
        rw [hp]
        simp
      rw [scanLoop_stop cfg grid (iterMove cfg dir d (x, y)) (invDirection dir) ']' '['
        fuel _ 1 hne hz, hstep, hj]
      rfl
    · have hj2 : 0 < d - j - 1 := by omega
      have hdelta : bracketDelta ']' '[' (grid (iterMove cfg dir (d - j - 1) (x, y))) = 0 :=
        bracketDelta_zero (hmid (d - j - 1) hj2 (by omega)).2 (hmid (d - j - 1) hj2 (by omega)).1
      have hz : (1 : Int) + bracketDelta ']' '['
          (grid (stepMove cfg (invDirection dir) (iterMove cfg dir (d - j) (x, y)))) ≠ 0 := by
        rw [hstep, hdelta]
        norm_num
      rw [scanLoop_go cfg grid (iterMove cfg dir d (x, y)) (invDirection dir) ']' '['
        fuel _ 1 hne hz, hstep, hdelta, add_zero]
      have hidx : d - (j + 1) = d - j - 1 := by omega
      have h := ih (j + 1) (by omega) (by omega)
      rw [hidx] at h
      exact h

/-- Claim C9: for a balanced bracket pair at `p` (holding `[`) and `q`
(holding `]`, `d` scan steps past `p`) with no other bracket opcode between
them along the scan line, resolving from `p` returns `q`, and resolving from
`q` (which scans in the reverse direction) returns `p`. -/
theorem bracket_symmetry (cfg : Config) (grid : GridF) (x y : Int) (direction : Char)
    (d : Nat)
    (hh : 0 < cfg.height) (hw : 0 < cfg.width)
    (hx1 : 0 ≤ x) (hx2 : x < (cfg.height : Int)) (hy1 : 0 ≤ y) (hy2 : y < (cfg.width : Int))
    (hdir : direction = '<' ∨ direction = '>' ∨ direction = '^' ∨ direction = 'v')
    (hd1 : 1 ≤ d) (hd2 : d < scanExtent cfg direction)
    (hp : numToChar (grid (x, y)) = some '[')
    (hq : numToChar (grid (iterMove cfg direction d (x, y))) = some ']')
    (hmid : ∀ k, 0 < k → k < d →
      numToChar (grid (iterMove cfg direction k (x, y))) ≠ some '[' ∧
      numToChar (grid (iterMove cfg direction k (x, y))) ≠ some ']') :
    getMatchingBracket cfg grid (x, y) direction '[' = iterMove cfg direction d (x, y) ∧
    getMatchingBracket cfg grid (iterMove cfg direction d (x, y)) direction ']' = (x, y) := by
  have hfuel : d ≤ cfg.height + cfg.width := by
    have := scanExtent_pos_le cfg direction hh hw
    omega
  constructor
  · have h := scanLoop_pair_forward cfg grid x y direction hx1 hx2 hy1 hy2 hdir d hd2
      hq hmid (cfg.height + cfg.width) 0 (by omega) (by omega)
    simp only [iterMove] at h
    unfold getMatchingBracket
    rw [show scanDirOf direction '[' = direction from rfl,
      show invBracket '[' = ']' from rfl, h]
    rfl
  · have h := scanLoop_pair_backward cfg grid x y direction hx1 hx2 hy1 hy2 hdir d hd2
      hp hmid (cfg.height + cfg.width) 0 (by omega) (by omega)
    simp only [Nat.sub_zero] at h
    unfold getMatchingBracket
    rw [show scanDirOf direction ']' = invDirection direction from rfl,
      show invBracket ']' = '[' from rfl, h]
    rfl

/-- Witness for `bracket_symmetry` on the concrete pair at (0, 1) and (0, 3). -/
theorem bracket_symmetry_witness :
    getMatchingBracket cfg5 gridB (0, 1) '>' '[' = iterMove cfg5 '>' 2 (0, 1) ∧
    getMatchingBracket cfg5 gridB (iterMove cfg5 '>' 2 (0, 1)) '>' ']' = (0, 1) :=
  bracket_symmetry cfg5 gridB 0 1 '>' 2 (by decide) (by decide) (by decide) (by decide)
    (by decide) (by decide) (Or.inr (Or.inl rfl)) (by decide) (by decide) (by decide)
    (by decide)
    (by intro k hk1 hk2
        have hk : k = 1 := by omega
        subst hk
        exact ⟨by decide, by decide⟩)

end BrainPond
